import Mathlib

/-!
Verification of `caffe::DataReader` (src/include/caffe/data_reader.hpp).

The repository ships only the class header; the member-function bodies
(data_reader.cpp) are not under src/, so operations whose bodies are missing
are modelled from the spec (each such definition says so in its doc comment).
Definitions that come straight from the header (`source_key`, the inline
`value()` bodies of `DBShuffle`/`DBSequential`, the field layout of
`QueuePair`, `Body`, `DataReader`) are translated directly.

Records are opaque byte strings, modelled as `List Nat`.
-/

namespace Caffe

/-- A record payload: an opaque byte string (spec treats records as opaque). -/
abbrev ByteStr := List Nat

/-! ## Database cursor (external collaborator, spec section 6)

The database collaborator interface: `seek_to_first`, `next`, `valid`,
`value`.  A cursor is a position into the database's natural record order. -/

/-- A raw database cursor: the records in natural (storage) order plus the
current position.  `pos = records.length` is the exhausted ("invalid") state. -/
structure Cursor where
  records : List ByteStr
  pos : Nat
  deriving DecidableEq, Repr

/-- `cursor.valid()`: the cursor points at an existing record. -/
def Cursor.valid (c : Cursor) : Bool := c.pos < c.records.length

/-- `cursor.value()`: the byte string at the cursor's current position. -/
def Cursor.value (c : Cursor) : ByteStr := c.records.getD c.pos []

/-- `cursor.Next()`: advance the underlying cursor by one position. -/
def Cursor.next (c : Cursor) : Cursor := { c with pos := c.pos + 1 }

/-- `cursor.SeekToFirst()`: reset the cursor to the first record. -/
def Cursor.seekToFirst (c : Cursor) : Cursor := { c with pos := 0 }

/-! ## DBSequential -/

namespace DBSequential

/-- Modelled from the spec: the body of `DataReader::DBSequential::Next` is in
data_reader.cpp, which is not under src/.  Per the spec (section 4.3), `Next()`
advances the underlying cursor by one and, if the cursor is exhausted, resets
it to the first key (wrap-around). -/
def Next (c : Cursor) : Cursor :=
  let c1 := c.next
  if c1.valid then c1 else c1.seekToFirst

/-- `DBSequential::value()` (header line 78): returns `cursor->value()`. -/
def value (c : Cursor) : ByteStr := c.value

end DBSequential

/-! ## source_key (header lines 103-105) -/

/-- `DataReader::source_key`: `param.name() + ":" + param.data_param().source()`. -/
def source_key (name source : String) : String := name ++ ":" ++ source

/-! ## DBShuffle -/

namespace DBShuffle

/-- A captured record reference, header line 68:
`vector<std::pair<void*, int> > image_pointers_`.  The `void*` data pointer is
modelled as the record's index in the database's natural storage order, the
`int` as the record's byte count. -/
abbrev RecRef := Nat × Nat

/-- Reading `r.2` bytes starting at data pointer `r.1`, as done by
`string(static_cast<const char*>(p->first), p->second)`. -/
def readBytes (store : List ByteStr) (r : RecRef) : ByteStr :=
  (store.getD r.1 []).take r.2

/-- State of a `DBShuffle` adapter: the database's record storage that the
pointers reference, the captured sequence `image_pointers_`, the iterator
`current_image_` (an index into `image_pointers_`), and the random source
`prefetch_rng_`, modelled as a stream of naturals plus a count of values
consumed so far. -/
structure State where
  store : List ByteStr
  image_pointers_ : List RecRef
  current_image_ : Nat
  rng : Nat → Nat
  used : Nat

/-- `DBShuffle::value()` (header lines 62-65): build a byte string from the
`(pointer, length)` pair at `current_image_`. -/
def value (s : State) : ByteStr :=
  readBytes s.store (s.image_pointers_.getD s.current_image_ (0, 0))

/-- A uniform selection shuffle (one draw per remaining element) driven by the
random stream `g`; fuel `k` bounds the number of draws. -/
def shuffleSel {α : Type} (g : Nat → Nat) : Nat → List α → List α
  | 0, l => l
  | _ + 1, [] => []
  | k + 1, x :: xs =>
      (x :: xs).getD (g k % (xs.length + 1)) x ::
        shuffleSel g k ((x :: xs).eraseIdx (g k % (xs.length + 1)))

/-- Modelled from the spec: `DBShuffle::ShuffleImages` (data_reader.cpp is not
under src/) reshuffles `image_pointers_` in place with a uniform random
shuffle driven by `prefetch_rng_`. -/
def ShuffleImages (s : State) : State :=
  { s with
    image_pointers_ :=
      shuffleSel (fun j => s.rng (s.used + j))
        s.image_pointers_.length s.image_pointers_,
    used := s.used + s.image_pointers_.length }

/-- Modelled from the spec: `DBShuffle::Next` (data_reader.cpp is not under
src/) advances `current_image_`; on reaching the end of `image_pointers_` it
reshuffles and resets the iterator to the beginning. -/
def Next (s : State) : State :=
  if s.current_image_ + 1 < s.image_pointers_.length then
    { s with current_image_ := s.current_image_ + 1 }
  else
    { ShuffleImages s with current_image_ := 0 }

/-- Modelled from the spec: the `DBShuffle` constructor's capture pass
(data_reader.cpp is not under src/) iterates the entire database once in its
natural sequential order, recording a `(pointer, length)` pair per record. -/
def capturePointers (db : List ByteStr) : List RecRef :=
  (List.range db.length).map (fun i => (i, (db.getD i []).length))

/-- Modelled from the spec: `DBShuffle` construction = one capture pass in
natural order, then an initial uniform permutation of the captured sequence;
the iterator starts at position 0. -/
def construct (db : List ByteStr) (g : Nat → Nat) : State :=
  { store := db
    image_pointers_ :=
      shuffleSel g (capturePointers db).length (capturePointers db)
    current_image_ := 0
    rng := g
    used := (capturePointers db).length }

/-- The list of values yielded by `n` successive `value(); Next()` call
pairs, starting in state `s`. -/
def valuesOver : Nat → State → List ByteStr
  | 0, _ => []
  | n + 1, s => value s :: valuesOver n (Next s)

/-- Wellformedness: the adapter's pointer sequence is a permutation of the
capture-pass output over its store. -/
def Wf (s : State) : Prop :=
  List.Perm s.image_pointers_ (capturePointers s.store)

/-- The adapter state after `n` calls to `Next()` since construction. -/
def shuffleStateAt (db : List ByteStr) (g : Nat → Nat) (n : Nat) : State :=
  Next^[n] (construct db g)

/-- `DBShuffle::value()` as a method call returning the post-call state: the
header body (lines 62-65) only reads `current_image_` and the bytes it points
to, and writes no member, so the post-call state is the pre-call state. -/
def valueCall (s : State) : ByteStr × State :=
  (value s, s)

end DBShuffle

/-- `DBSequential::value()` as a method call returning the post-call state:
the header body (line 78) only performs the read-only collaborator call
`cursor->value()` (spec section 6) and writes no member. -/
def DBSequential.valueCall (c : Cursor) : ByteStr × Cursor :=
  (DBSequential.value c, c)

/-! ## Process-wide source registry (claims C1, C2, C7)

The `DataReader` constructor and destructor bodies are in data_reader.cpp,
which is not under src/.  The get-or-create discipline against the static
`bodies_` map of weak references (header lines 107-110) and the teardown on
last release are modelled from the spec (sections 3, 4.1, 7). -/

/-- One `Body` (background reader, header lines 83-99) as tracked by the
registry model: its identity, source key, number of consumer handles sharing
ownership (the shared-pointer count), whether its thread is still running,
whether its DB handle and cursor have been released, and its cursor
position (0 = start of the database). -/
structure BodyRec where
  id : Nat
  key : String
  refs : Nat
  running : Bool
  released : Bool
  cursorPos : Nat
  deriving DecidableEq, Repr

/-- The process-wide state: the next unused body identity, every body created
so far (dead ones keep `refs = 0`), and the static `bodies_` map from source
key to a weak (non-owning) reference, modelled as the referenced id. -/
structure SysState where
  nextId : Nat
  bodies : List BodyRec
  registry : List (String × Nat)
  deriving DecidableEq, Repr

/-- Lookup in the `bodies_` map. -/
def lookupReg : List (String × Nat) → String → Option Nat
  | [], _ => none
  | (k, i) :: rest, key => if k = key then some i else lookupReg rest key

/-- Store a fresh weak reference under `key`, dropping any stale entry. -/
def insertReg (reg : List (String × Nat)) (key : String) (i : Nat) :
    List (String × Nat) :=
  (key, i) :: reg.filter (fun e => !(e.1 == key))

/-- Dereference a weak body reference against the set of bodies. -/
def findBody : List BodyRec → Nat → Option BodyRec
  | [], _ => none
  | b :: rest, i => if b.id = i then some b else findBody rest i

/-- Update the body with identity `i` in place. -/
def updBody (bodies : List BodyRec) (i : Nat) (f : BodyRec → BodyRec) :
    List BodyRec :=
  bodies.map (fun b => if b.id = i then f b else b)

/-- Modelled from the spec: when no live body exists for the key, the
constructor creates a new `Body` — which starts its background thread with its
cursor at the start of the database — registers a weak reference under the
key (replacing any expired entry: lazy cleanup), and takes the first shared
reference.  Returns the new state and the created body's id. -/
def createFresh (key : String) (s : SysState) : SysState × Nat :=
  ({ nextId := s.nextId + 1
     bodies := ⟨s.nextId, key, 1, true, false, 0⟩ :: s.bodies
     registry := insertReg s.registry key s.nextId }, s.nextId)

/-- Modelled from the spec: `DataReader::DataReader` performs get-or-create
against the process-wide registry under the handle's source key: if the weak
reference for the key is live, attach to that body (take one more shared
reference); otherwise create a fresh body.  Returns the id of the body the
new handle attached to. -/
def constructHandle (key : String) (s : SysState) : SysState × Nat :=
  match lookupReg s.registry key with
  | some i =>
    match findBody s.bodies i with
    | some b =>
      if 0 < b.refs then
        ({ s with
            bodies := updBody s.bodies i (fun b0 => { b0 with refs := b0.refs + 1 }) },
          i)
      else createFresh key s
    | none => createFresh key s
  | none => createFresh key s

/-- Teardown events emitted by the destructor model, in emission order. -/
inductive TEvent
  | stopRequested
  | joined
  | dbReleased
  | cursorReleased
  deriving DecidableEq, Repr

/-- Modelled from the spec: `DataReader::~DataReader` releases the handle's
shared reference to its body; when that drops the last reference, the body's
thread is requested to stop and joined, and only then are its DB handle and
cursor released.  The registry entry is not touched here (lazy cleanup on a
later lookup). -/
def destructHandle (i : Nat) (s : SysState) : SysState × List TEvent :=
  match findBody s.bodies i with
  | none => (s, [])
  | some b =>
    if b.refs = 1 then
      ({ s with
          bodies := updBody s.bodies i
            (fun b0 => { b0 with refs := 0, running := false, released := true }) },
        [.stopRequested, .joined, .dbReleased, .cursorReleased])
    else if 1 < b.refs then
      ({ s with
          bodies := updBody s.bodies i (fun b0 => { b0 with refs := b0.refs - 1 }) },
        [])
    else (s, [])

/-- Construction/destruction error classification (spec section 7). -/
inductive ReaderError
  | InvalidSource
  deriving DecidableEq, Repr

/-- Modelled from the spec: constructing a `DataReader` with an empty layer
name or an empty source path fails fast with `InvalidSource` — no registry
access, no body, no background thread — otherwise construction performs the
get-or-create under `source_key name source`. -/
def DataReader.tryConstruct (name source : String) (s : SysState) :
    Except ReaderError (SysState × Nat) :=
  if name = "" ∨ source = "" then .error .InvalidSource
  else .ok (constructHandle (source_key name source) s)

/-- A trace operation against the process-wide registry. -/
inductive RegOp
  | construct (key : String)
  | destruct (id : Nat)
  deriving DecidableEq, Repr

/-- One trace step: constructor or destructor call. -/
def stepOp (s : SysState) : RegOp → SysState
  | .construct key => (constructHandle key s).1
  | .destruct i => (destructHandle i s).1

/-- The initial process state: no bodies, empty static map. -/
def initState : SysState := ⟨0, [], []⟩

/-- The process state after a trace of constructor/destructor calls. -/
def runOps (ops : List RegOp) : SysState := ops.foldl stepOp initState

/-! ## Round-robin body loop (claim C6) -/

/-- The full queues of the attached queue pairs (each a FIFO list of record
ids) plus the body loop's rotating round-robin cursor. -/
structure LoopState where
  queues : List (List Nat)
  rr : Nat
  deriving DecidableEq, Repr

/-- Modelled from the spec: one iteration of `Body::InternalThreadEntry` /
`read_one` (data_reader.cpp is not under src/) selects the next attached
QueuePair in round-robin order, fills one record `r` into that pair's full
queue, and advances the rotation. -/
def readOne (s : LoopState) (r : Nat) : LoopState :=
  { queues := s.queues.set s.rr (s.queues.getD s.rr [] ++ [r])
    rr := (s.rr + 1) % s.queues.length }

/-- The loop state after the body has produced records `0, 1, …, M-1` to `P`
attached pairs, starting from empty queues and the first pair. -/
def runLoop (P M : Nat) : LoopState :=
  (List.range M).foldl readOne ⟨List.replicate P [], 0⟩

/-! ## QueuePair buffer discipline (claim C8) -/

/-- A `QueuePair` plus the two ends of the producer/consumer contract: the
`free_` and `full_` queues (header lines 43-44) and the buffers currently
held out of the queues by the filling producer and the reading consumer.
Buffer handles are identities. -/
structure QPState where
  freeQ : List Nat
  fullQ : List Nat
  producerHeld : List Nat
  consumerHeld : List Nat
  deriving DecidableEq, Repr

/-- Modelled from the spec: `QueuePair::QueuePair(int size)` (data_reader.cpp
is not under src/) pre-populates `free_` with `size` fresh empty buffers; the
full queue starts empty and nothing is held by either side. -/
def mkQueuePair (size : Nat) : QPState :=
  ⟨List.range size, [], [], []⟩

/-- The four moves of the free/full exchange discipline (spec sections 2, 5):
the producer pops `free_` and later pushes the filled buffer to `full_`; the
consumer pops `full_` and later returns the buffer to `free_`. -/
inductive QPOp
  | producerTake
  | producerPush
  | consumerTake
  | consumerReturn
  deriving DecidableEq, Repr

/-- One exchange move; a pop of an empty queue blocks, i.e. changes nothing
in this untimed model. -/
def qpStep (s : QPState) : QPOp → QPState
  | .producerTake =>
    match s.freeQ with
    | [] => s
    | b :: rest => { s with freeQ := rest, producerHeld := s.producerHeld ++ [b] }
  | .producerPush =>
    match s.producerHeld with
    | [] => s
    | b :: rest => { s with producerHeld := rest, fullQ := s.fullQ ++ [b] }
  | .consumerTake =>
    match s.fullQ with
    | [] => s
    | b :: rest => { s with fullQ := rest, consumerHeld := s.consumerHeld ++ [b] }
  | .consumerReturn =>
    match s.consumerHeld with
    | [] => s
    | b :: rest => { s with consumerHeld := rest, freeQ := s.freeQ ++ [b] }

/-- The pair state after a sequence of exchange moves from creation. -/
def runQP (size : Nat) (ops : List QPOp) : QPState :=
  ops.foldl qpStep (mkQueuePair size)

/-- Every buffer handle with the place it currently occupies, as one list. -/
def allBufs (s : QPState) : List Nat :=
  s.freeQ ++ s.fullQ ++ s.producerHeld ++ s.consumerHeld

/-! ## Theorems -/

/-- Step characterization of the sequential adapter: `Next` moves position
`p` to `p + 1`, or to `0` when `p + 1` falls past the last record. -/
theorem DBSequential.Next_pos (recs : List ByteStr) (p : Nat) :
    (DBSequential.Next ⟨recs, p⟩).pos =
      if p + 1 < recs.length then p + 1 else 0 := by
  simp only [DBSequential.Next, Cursor.next, Cursor.valid, Cursor.seekToFirst]
  split <;> rename_i h
  · simp only [decide_eq_true_eq] at h
    simp [h]
  · simp only [decide_eq_true_eq] at h
    simp [h]

theorem DBSequential.Next_records (c : Cursor) :
    (DBSequential.Next c).records = c.records := by
  simp only [DBSequential.Next, Cursor.next, Cursor.valid, Cursor.seekToFirst]
  split <;> rfl

/-- Position after `n` iterated calls to `Next` starting from position 0 is
`n % K` for a database of `K ≥ 1` records. -/
theorem DBSequential.iterate_pos (recs : List ByteStr) (hK : 1 ≤ recs.length)
    (n : Nat) : (DBSequential.Next^[n] ⟨recs, 0⟩) = ⟨recs, n % recs.length⟩ := by
  induction n with
  | zero => simp [Nat.zero_mod]
  | succ n ih =>
    rw [Function.iterate_succ_apply', ih]
    have hlt : n % recs.length < recs.length := Nat.mod_lt _ hK
    have key : (n % recs.length + 1) % recs.length = (n + 1) % recs.length :=
      Nat.mod_add_mod n recs.length 1
    simp only [DBSequential.Next, Cursor.next, Cursor.valid, Cursor.seekToFirst]
    split <;> rename_i h
    · simp only [decide_eq_true_eq] at h
      simp only [Cursor.mk.injEq, true_and]
      rw [← key, Nat.mod_eq_of_lt h]
    · simp only [decide_eq_true_eq, not_lt] at h
      simp only [Cursor.mk.injEq, true_and]
      have hK1 : n % recs.length + 1 = recs.length := by omega
      rw [← key, hK1, Nat.mod_self]

/-! ## Sequential adapter: claim C3 -/

/-- C3: each call to `DBSequential::Next()` advances the cursor by one record,
resetting to the first record when exhausted, and after exactly `K` calls from
the first record `value()` returns the first record's byte string again. -/
theorem C3_sequential_wrap (recs : List ByteStr) (hK : 1 ≤ recs.length) :
    (∀ p : Nat, (DBSequential.Next ⟨recs, p⟩).pos =
        if p + 1 < recs.length then p + 1 else 0) ∧
    DBSequential.value (DBSequential.Next^[recs.length] ⟨recs, 0⟩) =
      DBSequential.value ⟨recs, 0⟩ := by
  refine ⟨fun p => DBSequential.Next_pos recs p, ?_⟩
  rw [DBSequential.iterate_pos recs hK, Nat.mod_self]

/-- Witness for C3 on a concrete three-record database. -/
theorem C3_sequential_wrap_witness :
    1 ≤ ([[0], [1], [2]] : List ByteStr).length ∧
    DBSequential.value
        (DBSequential.Next^[([[0], [1], [2]] : List ByteStr).length]
          ⟨[[0], [1], [2]], 0⟩) =
      DBSequential.value ⟨[[0], [1], [2]], 0⟩ :=
  ⟨by decide, (C3_sequential_wrap [[0], [1], [2]] (by decide)).2⟩

/-! ## source_key: claim C9 -/

/-- C9: the source key is the layer name, a colon, and the source path
concatenated; the mapping is not injective — the distinct pairs
`("a:b", "c")` and `("a", "b:c")` collide on the same key. -/
theorem C9_source_key_collision :
    (∀ name source : String, source_key name source = name ++ ":" ++ source) ∧
    source_key "a:b" "c" = source_key "a" "b:c" ∧
    ("a:b", "c") ≠ (("a", "b:c") : String × String) :=
  ⟨fun _ _ => rfl, by decide, by decide⟩

/-! ## Shuffle lemmas -/

namespace DBShuffle

/-- Drawing the element at index `i` to the front is a permutation. -/
theorem perm_getD_cons_eraseIdx {α : Type} (d : α) :
    ∀ (l : List α) (i : Nat), i < l.length →
      List.Perm (l.getD i d :: l.eraseIdx i) l := by
  intro l
  induction l with
  | nil => intro i h; simp at h
  | cons a t ih =>
    intro i h
    cases i with
    | zero => simp
    | succ i =>
      have ht : i < t.length := by simpa using Nat.lt_of_succ_lt_succ h
      simp only [List.getD_cons_succ, List.eraseIdx_cons_succ]
      exact (List.Perm.swap a (t.getD i d) _).trans ((ih i ht).cons a)

/-- The selection shuffle returns a permutation of its input. -/
theorem shuffleSel_perm {α : Type} (g : Nat → Nat) :
    ∀ (k : Nat) (l : List α), List.Perm (shuffleSel g k l) l := by
  intro k
  induction k with
  | zero => intro l; exact List.Perm.refl l
  | succ k ih =>
    intro l
    match l with
    | [] => exact List.Perm.refl []
    | x :: xs =>
      have hlt : g k % (xs.length + 1) < (x :: xs).length := by
        simpa using Nat.mod_lt (g k) (Nat.succ_pos xs.length)
      exact ((ih _).cons _).trans (perm_getD_cons_eraseIdx x (x :: xs) _ hlt)

theorem ShuffleImages_store (s : State) : (ShuffleImages s).store = s.store := rfl

theorem ShuffleImages_perm (s : State) :
    List.Perm (ShuffleImages s).image_pointers_ s.image_pointers_ :=
  shuffleSel_perm _ _ _

theorem Next_store (s : State) : (Next s).store = s.store := by
  unfold Next; split <;> rfl

theorem Next_perm (s : State) :
    List.Perm (Next s).image_pointers_ s.image_pointers_ := by
  unfold Next
  split
  · exact List.Perm.refl _
  · exact ShuffleImages_perm s

/-- The capture pass records the records in natural order. -/
theorem capturePointers_map_fst (db : List ByteStr) :
    (capturePointers db).map Prod.fst = List.range db.length := by
  simp only [capturePointers, List.map_map]
  show List.map id (List.range db.length) = List.range db.length
  exact List.map_id _

theorem capturePointers_length (db : List ByteStr) :
    (capturePointers db).length = db.length := by
  simp [capturePointers]

theorem mem_capturePointers (db : List ByteStr) (p : RecRef)
    (hp : p ∈ capturePointers db) :
    p.1 < db.length ∧ p.2 = (db.getD p.1 []).length := by
  simp only [capturePointers, List.mem_map, List.mem_range] at hp
  obtain ⟨i, hi, rfl⟩ := hp
  exact ⟨hi, rfl⟩

/-- Dereferencing every captured pointer recovers the database contents. -/
theorem map_readBytes_capture (db : List ByteStr) :
    (capturePointers db).map (readBytes db) = db := by
  unfold capturePointers
  rw [List.map_map]
  apply List.ext_getElem
  · simp
  · intro i h1 h2
    simp only [List.getElem_map, List.getElem_range, Function.comp_apply, readBytes]
    rw [List.getD_eq_getElem db [] h2]
    exact List.take_length _

theorem construct_Wf (db : List ByteStr) (g : Nat → Nat) : Wf (construct db g) :=
  shuffleSel_perm _ _ _

theorem Next_Wf (s : State) (h : Wf s) : Wf (Next s) := by
  unfold Wf
  rw [Next_store]
  exact (Next_perm s).trans h

theorem shuffleStateAt_inv (db : List ByteStr) (g : Nat → Nat) (n : Nat) :
    (shuffleStateAt db g n).store = db ∧ Wf (shuffleStateAt db g n) := by
  induction n with
  | zero => exact ⟨rfl, construct_Wf db g⟩
  | succ n ih =>
    rw [shuffleStateAt, Function.iterate_succ_apply']
    exact ⟨(Next_store _).trans ih.1, Next_Wf _ ih.2⟩

theorem shuffleStateAt_len (db : List ByteStr) (g : Nat → Nat) (n : Nat) :
    (shuffleStateAt db g n).image_pointers_.length = db.length := by
  have h := shuffleStateAt_inv db g n
  have := h.2.length_eq
  rw [h.1, capturePointers_length] at this
  exact this

/-- Yielded values as a segment of the pointer sequence: while no reshuffle
happens, `n` `value(); Next()` pairs read `n` consecutive pointers. -/
theorem valuesOver_eq (n : Nat) : ∀ (s : State),
    s.current_image_ + n ≤ s.image_pointers_.length →
    valuesOver n s =
      ((s.image_pointers_.drop s.current_image_).take n).map (readBytes s.store) := by
  induction n with
  | zero => intro s _; simp [valuesOver]
  | succ n ih =>
    intro s h
    have hcur : s.current_image_ < s.image_pointers_.length := by omega
    rw [valuesOver, List.drop_eq_getElem_cons hcur, List.take_succ_cons,
      List.map_cons]
    congr 1
    · simp only [value]
      rw [List.getD_eq_getElem _ _ hcur]
    · by_cases hlt : s.current_image_ + 1 < s.image_pointers_.length
      · have hNext : Next s = { s with current_image_ := s.current_image_ + 1 } := by
          unfold Next; rw [if_pos hlt]
        rw [hNext]
        have hle : ({ s with current_image_ := s.current_image_ + 1 } : State).current_image_ + n ≤
            ({ s with current_image_ := s.current_image_ + 1 } : State).image_pointers_.length := by
          show s.current_image_ + 1 + n ≤ s.image_pointers_.length
          omega
        simpa using ih { s with current_image_ := s.current_image_ + 1 } hle
      · have hn : n = 0 := by omega
        subst hn
        simp [valuesOver]

/-- A full pass started at position 0 yields a permutation of the database. -/
theorem valuesOver_pass (s : State) (h0 : s.current_image_ = 0) (hw : Wf s) :
    List.Perm (valuesOver s.image_pointers_.length s) s.store := by
  rw [valuesOver_eq _ s (by omega)]
  rw [h0, List.drop_zero, List.take_length]
  have h2 := hw.map (readBytes s.store)
  rw [map_readBytes_capture] at h2
  exact h2

end DBShuffle

/-! ## Claims C4, C5, C10 -/

/-- C4: every full pass of the shuffled adapter yields the K record values
exactly once each — a permutation of the database, with no repeated value when
the records are distinct; `Next()` advances the iterator by one, and on
reaching the end it reshuffles `image_pointers_` into a fresh permutation of
itself and restarts at position 0. -/
theorem C4_shuffled_pass_coverage (db : List ByteStr) (g : Nat → Nat) (n : Nat) :
    ((DBShuffle.shuffleStateAt db g n).current_image_ = 0 →
        List.Perm (DBShuffle.valuesOver db.length (DBShuffle.shuffleStateAt db g n)) db
        ∧ (db.Nodup →
            (DBShuffle.valuesOver db.length (DBShuffle.shuffleStateAt db g n)).Nodup))
    ∧ ((DBShuffle.shuffleStateAt db g n).current_image_ + 1 < db.length →
        DBShuffle.shuffleStateAt db g (n + 1) =
          { DBShuffle.shuffleStateAt db g n with
              current_image_ := (DBShuffle.shuffleStateAt db g n).current_image_ + 1 })
    ∧ ((DBShuffle.shuffleStateAt db g n).current_image_ + 1 ≥ db.length →
        (DBShuffle.shuffleStateAt db g (n + 1)).current_image_ = 0
        ∧ List.Perm (DBShuffle.shuffleStateAt db g (n + 1)).image_pointers_
            (DBShuffle.shuffleStateAt db g n).image_pointers_) := by
  have hinv := DBShuffle.shuffleStateAt_inv db g n
  have hlen := DBShuffle.shuffleStateAt_len db g n
  have hstep : DBShuffle.shuffleStateAt db g (n + 1) =
      DBShuffle.Next (DBShuffle.shuffleStateAt db g n) := by
    rw [DBShuffle.shuffleStateAt, Function.iterate_succ_apply']
    rfl
  refine ⟨fun h0 => ?_, fun hlt => ?_, fun hge => ?_⟩
  · have hpass := DBShuffle.valuesOver_pass _ h0 hinv.2
    rw [hlen, hinv.1] at hpass
    exact ⟨hpass, fun hnd => (hpass.nodup_iff).mpr hnd⟩
  · rw [hstep, DBShuffle.Next, if_pos (by rw [hlen]; exact hlt)]
  · rw [hstep]
    constructor
    · rw [DBShuffle.Next, if_neg (by rw [hlen]; omega)]
    · exact DBShuffle.Next_perm _

/-- Witness for C4 on a concrete three-record database: pass coverage at
construction, a plain advance, and the end-of-pass reshuffle plus restart. -/
theorem C4_shuffled_pass_coverage_witness :
    (List.Perm
        (DBShuffle.valuesOver 3
          (DBShuffle.shuffleStateAt [[0], [1], [2]] (fun _ => 1) 0))
        [[0], [1], [2]]
      ∧ (DBShuffle.valuesOver 3
          (DBShuffle.shuffleStateAt [[0], [1], [2]] (fun _ => 1) 0)).Nodup)
    ∧ DBShuffle.shuffleStateAt [[0], [1], [2]] (fun _ => 1) 1 =
        { DBShuffle.shuffleStateAt [[0], [1], [2]] (fun _ => 1) 0 with
            current_image_ := 1 }
    ∧ ((DBShuffle.shuffleStateAt [[0], [1], [2]] (fun _ => 1) 3).current_image_ = 0
      ∧ List.Perm
          (DBShuffle.shuffleStateAt [[0], [1], [2]] (fun _ => 1) 3).image_pointers_
          (DBShuffle.shuffleStateAt [[0], [1], [2]] (fun _ => 1) 2).image_pointers_) := by
  refine ⟨?_, ?_, ?_⟩
  · have h := (C4_shuffled_pass_coverage [[0], [1], [2]] (fun _ => 1) 0).1 rfl
    exact ⟨h.1, h.2 (by decide)⟩
  · exact (C4_shuffled_pass_coverage [[0], [1], [2]] (fun _ => 1) 0).2.1 (by decide)
  · exact (C4_shuffled_pass_coverage [[0], [1], [2]] (fun _ => 1) 2).2.2 (by decide)

/-- C5: the shuffled adapter's capture pass records one `(pointer, length)`
reference per record, in the database's natural order, exactly once at
construction; after any number of `Next()` calls (hence reshuffles) the
adapter still holds exactly that one capture, merely permuted, over an
unchanged store, and every entry is a reference (index and byte count), not a
record copy. -/
theorem C5_capture_once (db : List ByteStr) (g : Nat → Nat) (n : Nat) :
    (DBShuffle.capturePointers db).map Prod.fst = List.range db.length
    ∧ (∀ p ∈ DBShuffle.capturePointers db, p.2 = (db.getD p.1 []).length)
    ∧ (DBShuffle.shuffleStateAt db g n).store = db
    ∧ List.Perm (DBShuffle.shuffleStateAt db g n).image_pointers_
        (DBShuffle.capturePointers db)
    ∧ (∀ p ∈ (DBShuffle.shuffleStateAt db g n).image_pointers_,
        p.1 < db.length ∧ p.2 = (db.getD p.1 []).length) := by
  have hinv := DBShuffle.shuffleStateAt_inv db g n
  have hperm : List.Perm (DBShuffle.shuffleStateAt db g n).image_pointers_
      (DBShuffle.capturePointers db) := by
    have h2 : List.Perm (DBShuffle.shuffleStateAt db g n).image_pointers_
        (DBShuffle.capturePointers (DBShuffle.shuffleStateAt db g n).store) := hinv.2
    rw [hinv.1] at h2
    exact h2
  refine ⟨DBShuffle.capturePointers_map_fst db, ?_, hinv.1, hperm, ?_⟩
  · intro p hp
    exact (DBShuffle.mem_capturePointers db p hp).2
  · intro p hp
    exact DBShuffle.mem_capturePointers db p (hperm.mem_iff.mp hp)

/-- Witness for C5: after one `Next()` on a concrete two-record database, the
reference `(1, 1)` is still held and is a valid in-range reference. -/
theorem C5_capture_once_witness :
    ((1, 1) : DBShuffle.RecRef) ∈
      (DBShuffle.shuffleStateAt [[5], [6]] (fun _ => 0) 1).image_pointers_
    ∧ ((1 : Nat) < 2 ∧ (1 : Nat) = (([[5], [6]] : List ByteStr).getD 1 []).length) := by
  have hmem : ((1, 1) : DBShuffle.RecRef) ∈
      (DBShuffle.shuffleStateAt [[5], [6]] (fun _ => 0) 1).image_pointers_ := by
    decide
  exact ⟨hmem, (C5_capture_once [[5], [6]] (fun _ => 0) 1).2.2.2.2 (1, 1) hmem⟩

/-- C10: `value()` on both cursor adapters is read-only and deterministic: a
call leaves the adapter state unchanged, so two calls with no intervening
`Next()` return equal byte strings. -/
theorem C10_value_readonly (c : Cursor) (s : DBShuffle.State) :
    (DBSequential.valueCall c).2 = c
    ∧ (DBShuffle.valueCall s).2 = s
    ∧ (DBSequential.valueCall (DBSequential.valueCall c).2).1 =
        (DBSequential.valueCall c).1
    ∧ (DBShuffle.valueCall (DBShuffle.valueCall s).2).1 =
        (DBShuffle.valueCall s).1 :=
  ⟨rfl, rfl, rfl, rfl⟩

/-! ## Registry lemmas -/

theorem findBody_some {l : List BodyRec} {i : Nat} {b : BodyRec}
    (h : findBody l i = some b) : b ∈ l ∧ b.id = i := by
  induction l with
  | nil => simp [findBody] at h
  | cons c rest ih =>
    rw [findBody] at h
    by_cases hc : c.id = i
    · rw [if_pos hc] at h
      cases h
      exact ⟨List.mem_cons_self _ _, hc⟩
    · rw [if_neg hc] at h
      obtain ⟨hm, hid⟩ := ih h
      exact ⟨List.mem_cons_of_mem _ hm, hid⟩

theorem findBody_none {l : List BodyRec} {i : Nat}
    (h : findBody l i = none) : ∀ b ∈ l, b.id ≠ i := by
  induction l with
  | nil => intro b hb; simp at hb
  | cons c rest ih =>
    rw [findBody] at h
    by_cases hc : c.id = i
    · rw [if_pos hc] at h; cases h
    · rw [if_neg hc] at h
      intro b hb
      rcases List.mem_cons.mp hb with rfl | hb2
      · exact hc
      · exact ih h b hb2

/-- Bodies are identified by their id under the id-nodup invariant. -/
theorem id_unique {l : List BodyRec} (hnd : (l.map BodyRec.id).Nodup)
    {b1 b2 : BodyRec} (h1 : b1 ∈ l) (h2 : b2 ∈ l) (hid : b1.id = b2.id) :
    b1 = b2 :=
  List.inj_on_of_nodup_map hnd h1 h2 hid

theorem mem_findBody {l : List BodyRec} (hnd : (l.map BodyRec.id).Nodup)
    {b : BodyRec} (hb : b ∈ l) : findBody l b.id = some b := by
  induction l with
  | nil => simp at hb
  | cons c rest ih =>
    rw [List.map_cons, List.nodup_cons] at hnd
    rw [findBody]
    rcases List.mem_cons.mp hb with rfl | hb2
    · rw [if_pos rfl]
    · by_cases hc : c.id = b.id
      · exact absurd (by rw [hc]; exact List.mem_map_of_mem _ hb2) hnd.1
      · rw [if_neg hc]
        exact ih hnd.2 hb2

theorem updBody_map_id {l : List BodyRec} {i : Nat} {f : BodyRec → BodyRec}
    (hf : ∀ b, (f b).id = b.id) :
    (updBody l i f).map BodyRec.id = l.map BodyRec.id := by
  unfold updBody
  rw [List.map_map]
  refine List.map_congr_left (fun b _ => ?_)
  simp only [Function.comp_apply]
  by_cases hb : b.id = i
  · rw [if_pos hb]; exact hf b
  · rw [if_neg hb]

theorem lookupReg_insert_self (reg : List (String × Nat)) (key : String) (i : Nat) :
    lookupReg (insertReg reg key i) key = some i := by
  rw [insertReg, lookupReg, if_pos rfl]

theorem lookupReg_filter (reg : List (String × Nat)) (key key2 : String)
    (h : key2 ≠ key) :
    lookupReg (reg.filter (fun e => !(e.1 == key))) key2 = lookupReg reg key2 := by
  induction reg with
  | nil => rfl
  | cons e rest ih =>
    by_cases he : e.1 = key
    · rw [List.filter_cons_of_neg (by simp [he])]
      cases e with
      | mk k v =>
        simp only at he
        rw [lookupReg, if_neg (by rw [he]; exact fun hk => h hk.symm)]
        exact ih
    · rw [List.filter_cons_of_pos (by simp [he])]
      cases e with
      | mk k v =>
        rw [lookupReg, lookupReg]
        by_cases hk : k = key2
        · rw [if_pos hk, if_pos hk]
        · rw [if_neg hk, if_neg hk]
          exact ih

theorem lookupReg_insert_ne (reg : List (String × Nat)) (key : String) (i : Nat)
    (key2 : String) (h : key2 ≠ key) :
    lookupReg (insertReg reg key i) key2 = lookupReg reg key2 := by
  rw [insertReg, lookupReg, if_neg (fun hk => h hk.symm)]
  exact lookupReg_filter reg key key2 h

/-- Registry/body wellformedness, maintained by every trace. -/
structure SysInv (s : SysState) : Prop where
  idsBounded : ∀ b ∈ s.bodies, b.id < s.nextId
  idsNodup : (s.bodies.map BodyRec.id).Nodup
  liveRegistered : ∀ b ∈ s.bodies, 0 < b.refs →
    lookupReg s.registry b.key = some b.id
  regTargets : ∀ key i, lookupReg s.registry key = some i →
    ∃ b, b ∈ s.bodies ∧ b.id = i ∧ b.key = key

theorem sysInv_createFresh (key : String) (s : SysState) (h : SysInv s)
    (hdead : ∀ b ∈ s.bodies, b.key = key → b.refs = 0) :
    SysInv (createFresh key s).1 := by
  have hreg : (createFresh key s).1.registry = insertReg s.registry key s.nextId :=
    rfl
  have hbod : (createFresh key s).1.bodies =
      ⟨s.nextId, key, 1, true, false, 0⟩ :: s.bodies := rfl
  have hnext : (createFresh key s).1.nextId = s.nextId + 1 := rfl
  constructor
  · intro b hb
    rw [hbod] at hb
    rw [hnext]
    rcases List.mem_cons.mp hb with rfl | hb2
    · exact Nat.lt_succ_self _
    · exact Nat.lt_succ_of_lt (h.idsBounded b hb2)
  · rw [hbod, List.map_cons]
    refine List.nodup_cons.mpr ⟨?_, h.idsNodup⟩
    intro hmem
    obtain ⟨b, hb, hid⟩ := List.mem_map.mp hmem
    have hid2 : b.id = s.nextId := hid
    have := h.idsBounded b hb
    omega
  · intro b hb hlive
    rw [hbod] at hb
    rw [hreg]
    rcases List.mem_cons.mp hb with rfl | hb2
    · exact lookupReg_insert_self s.registry key s.nextId
    · by_cases hk : b.key = key
      · have := hdead b hb2 hk
        omega
      · rw [lookupReg_insert_ne s.registry key s.nextId b.key hk]
        exact h.liveRegistered b hb2 hlive
  · intro key2 i hl
    rw [hreg] at hl
    rw [hbod]
    by_cases hk : key2 = key
    · subst hk
      rw [lookupReg_insert_self] at hl
      cases hl
      exact ⟨⟨s.nextId, key2, 1, true, false, 0⟩, List.mem_cons_self _ _, rfl, rfl⟩
    · rw [lookupReg_insert_ne s.registry key s.nextId key2 hk] at hl
      obtain ⟨b, hb, hbid, hbkey⟩ := h.regTargets key2 i hl
      exact ⟨b, List.mem_cons_of_mem _ hb, hbid, hbkey⟩

theorem constructHandle_eq_fresh_of_none {key : String} {s : SysState}
    (hl : lookupReg s.registry key = none) :
    constructHandle key s = createFresh key s := by
  simp only [constructHandle, hl]

theorem constructHandle_eq_fresh_of_noBody {key : String} {s : SysState} {i : Nat}
    (hl : lookupReg s.registry key = some i) (hf : findBody s.bodies i = none) :
    constructHandle key s = createFresh key s := by
  simp only [constructHandle, hl, hf]

theorem constructHandle_eq_fresh_of_dead {key : String} {s : SysState} {i : Nat}
    {b : BodyRec} (hl : lookupReg s.registry key = some i)
    (hf : findBody s.bodies i = some b) (hr : ¬ 0 < b.refs) :
    constructHandle key s = createFresh key s := by
  simp only [constructHandle, hl, hf]
  rw [if_neg hr]

theorem constructHandle_eq_attach {key : String} {s : SysState} {i : Nat}
    {b : BodyRec} (hl : lookupReg s.registry key = some i)
    (hf : findBody s.bodies i = some b) (hr : 0 < b.refs) :
    constructHandle key s =
      ({ s with
          bodies := updBody s.bodies i (fun b0 => { b0 with refs := b0.refs + 1 }) },
        i) := by
  simp only [constructHandle, hl, hf]
  rw [if_pos hr]

theorem destructHandle_eq_of_none {i : Nat} {s : SysState}
    (hf : findBody s.bodies i = none) : destructHandle i s = (s, []) := by
  simp only [destructHandle, hf]

theorem destructHandle_eq_last {i : Nat} {s : SysState} {b : BodyRec}
    (hf : findBody s.bodies i = some b) (h1 : b.refs = 1) :
    destructHandle i s =
      ({ s with
          bodies := updBody s.bodies i
            (fun b0 => { b0 with refs := 0, running := false, released := true }) },
        [TEvent.stopRequested, TEvent.joined, TEvent.dbReleased,
          TEvent.cursorReleased]) := by
  simp only [destructHandle, hf]
  rw [if_pos h1]

theorem destructHandle_eq_dec {i : Nat} {s : SysState} {b : BodyRec}
    (hf : findBody s.bodies i = some b) (h1 : ¬ b.refs = 1) (h2 : 1 < b.refs) :
    destructHandle i s =
      ({ s with
          bodies := updBody s.bodies i (fun b0 => { b0 with refs := b0.refs - 1 }) },
        []) := by
  simp only [destructHandle, hf]
  rw [if_neg h1, if_pos h2]

theorem destructHandle_eq_zero {i : Nat} {s : SysState} {b : BodyRec}
    (hf : findBody s.bodies i = some b) (h1 : ¬ b.refs = 1) (h2 : ¬ 1 < b.refs) :
    destructHandle i s = (s, []) := by
  simp only [destructHandle, hf]
  rw [if_neg h1, if_neg h2]

/-- Updating one body in place preserves the invariant whenever the update
keeps ids and keys, and only live bodies can result from live bodies. -/
theorem sysInv_updBody (s : SysState) (h : SysInv s) (i : Nat)
    (f : BodyRec → BodyRec)
    (hid : ∀ b, (f b).id = b.id) (hkey : ∀ b, (f b).key = b.key)
    (hlive : ∀ b, b ∈ s.bodies → b.id = i → 0 < (f b).refs → 0 < b.refs) :
    SysInv { s with bodies := updBody s.bodies i f } := by
  constructor
  · intro b' hb'
    obtain ⟨b1, hb1, hbeq⟩ := List.mem_map.mp hb'
    have hsame : b'.id = b1.id := by
      rw [← hbeq]
      by_cases hbi : b1.id = i
      · rw [if_pos hbi]; exact hid b1
      · rw [if_neg hbi]
    show b'.id < s.nextId
    rw [hsame]
    exact h.idsBounded b1 hb1
  · show ((updBody s.bodies i f).map BodyRec.id).Nodup
    rw [updBody_map_id hid]
    exact h.idsNodup
  · intro b' hb' hlv
    obtain ⟨b1, hb1, hbeq⟩ := List.mem_map.mp hb'
    show lookupReg s.registry b'.key = some b'.id
    by_cases hbi : b1.id = i
    · have hb'eq : b' = f b1 := by rw [← hbeq, if_pos hbi]
      have h1 : 0 < b1.refs := by
        refine hlive b1 hb1 hbi ?_
        rw [← hb'eq]
        exact hlv
      have h2 := h.liveRegistered b1 hb1 h1
      rw [hb'eq, hid, hkey]
      exact h2
    · have hb'eq : b' = b1 := by rw [← hbeq, if_neg hbi]
      rw [hb'eq]
      refine h.liveRegistered b1 hb1 ?_
      rw [← hb'eq]
      exact hlv
  · intro key2 i2 hl2
    obtain ⟨b1, hb1, hbid, hbkey⟩ := h.regTargets key2 i2 hl2
    refine ⟨(if b1.id = i then f b1 else b1), List.mem_map_of_mem _ hb1, ?_, ?_⟩
    · by_cases hbi : b1.id = i
      · rw [if_pos hbi, hid]; exact hbid
      · rw [if_neg hbi]; exact hbid
    · by_cases hbi : b1.id = i
      · rw [if_pos hbi, hkey]; exact hbkey
      · rw [if_neg hbi]; exact hbkey

/-- When every body for the key is dead (or none exists), construction takes
the create-fresh path (including the lazy cleanup of an expired weak ref). -/
theorem construct_fresh_cases (key : String) (s : SysState) (h : SysInv s)
    (hdead : ∀ b ∈ s.bodies, b.key = key → b.refs = 0) :
    constructHandle key s = createFresh key s := by
  cases hl : lookupReg s.registry key with
  | none => exact constructHandle_eq_fresh_of_none hl
  | some i =>
    obtain ⟨b, hb, hbid, hbkey⟩ := h.regTargets key i hl
    cases hf : findBody s.bodies i with
    | none => exact constructHandle_eq_fresh_of_noBody hl hf
    | some b0 =>
      obtain ⟨hb0mem, hb0id⟩ := findBody_some hf
      have hbb : b0 = b := id_unique h.idsNodup hb0mem hb (by rw [hb0id, hbid])
      have hz : b0.refs = 0 := hdead b0 hb0mem (by rw [hbb, hbkey])
      exact constructHandle_eq_fresh_of_dead hl hf (by omega)

/-- When a live body for the key exists, construction attaches to it. -/
theorem construct_attach_eq (s : SysState) (h : SysInv s) (b : BodyRec)
    (hb : b ∈ s.bodies) (hlive : 0 < b.refs) :
    constructHandle b.key s =
      ({ s with
          bodies := updBody s.bodies b.id
            (fun b0 => { b0 with refs := b0.refs + 1 }) },
        b.id) :=
  constructHandle_eq_attach (h.liveRegistered b hb hlive)
    (mem_findBody h.idsNodup hb) hlive

theorem sysInv_step (s : SysState) (h : SysInv s) (op : RegOp) :
    SysInv (stepOp s op) := by
  cases op with
  | construct key =>
    show SysInv (constructHandle key s).1
    cases hl : lookupReg s.registry key with
    | none =>
      rw [constructHandle_eq_fresh_of_none hl]
      refine sysInv_createFresh key s h (fun b hb hk => ?_)
      by_contra hr
      have h2 := h.liveRegistered b hb (Nat.pos_of_ne_zero hr)
      rw [hk, hl] at h2
      exact Option.noConfusion h2
    | some i =>
      cases hf : findBody s.bodies i with
      | none =>
        rw [constructHandle_eq_fresh_of_noBody hl hf]
        refine sysInv_createFresh key s h (fun b hb hk => ?_)
        by_contra hr
        have h2 := h.liveRegistered b hb (Nat.pos_of_ne_zero hr)
        rw [hk, hl] at h2
        injection h2 with h3
        exact findBody_none hf b hb h3.symm
      | some b0 =>
        by_cases hr : 0 < b0.refs
        · rw [constructHandle_eq_attach hl hf hr]
          obtain ⟨hb0mem, hb0id⟩ := findBody_some hf
          refine sysInv_updBody s h i _ (fun b => rfl) (fun b => rfl) ?_
          intro b hb hbi _
          have hbb : b = b0 := id_unique h.idsNodup hb hb0mem (by rw [hbi, hb0id])
          rw [hbb]
          exact hr
        · rw [constructHandle_eq_fresh_of_dead hl hf hr]
          refine sysInv_createFresh key s h (fun b hb hk => ?_)
          by_contra hr2
          have h2 := h.liveRegistered b hb (Nat.pos_of_ne_zero hr2)
          rw [hk, hl] at h2
          injection h2 with h3
          obtain ⟨hb0mem, hb0id⟩ := findBody_some hf
          have hbb : b = b0 := id_unique h.idsNodup hb hb0mem (by rw [← h3, hb0id])
          exact hr (by rw [← hbb]; exact Nat.pos_of_ne_zero hr2)
  | destruct i =>
    show SysInv (destructHandle i s).1
    cases hf : findBody s.bodies i with
    | none =>
      rw [destructHandle_eq_of_none hf]
      exact h
    | some b =>
      by_cases h1 : b.refs = 1
      · rw [destructHandle_eq_last hf h1]
        refine sysInv_updBody s h i _ (fun b => rfl) (fun b => rfl) ?_
        intro b2 _ _ hlv
        exact absurd hlv (Nat.lt_irrefl 0)
      · by_cases h2 : 1 < b.refs
        · rw [destructHandle_eq_dec hf h1 h2]
          refine sysInv_updBody s h i _ (fun b => rfl) (fun b => rfl) ?_
          intro b2 _ _ hlv
          exact Nat.lt_of_lt_of_le hlv (Nat.sub_le _ _)
        · rw [destructHandle_eq_zero hf h1 h2]
          exact h

theorem sysInv_init : SysInv initState := by
  constructor
  · intro b hb; simp [initState] at hb
  · simp [initState]
  · intro b hb; simp [initState] at hb
  · intro key i hl; simp [initState, lookupReg] at hl

theorem sysInv_foldl (ops : List RegOp) :
    ∀ s, SysInv s → SysInv (ops.foldl stepOp s) := by
  induction ops with
  | nil => intro s h; exact h
  | cons op rest ih => intro s h; exact ih _ (sysInv_step s h op)

theorem sysInv_runOps (ops : List RegOp) : SysInv (runOps ops) :=
  sysInv_foldl ops initState sysInv_init

/-! ## Claims C1, C2, C7 -/

/-- C1: in every reachable process state, at most one live `Body` exists per
source key; constructing a handle while a live body for the key exists
attaches to exactly that body and creates nothing new, and constructing when
no live body exists creates the body and registers it under the key. -/
theorem C1_one_body_per_source (ops : List RegOp) :
    (∀ b1 ∈ (runOps ops).bodies, ∀ b2 ∈ (runOps ops).bodies,
        0 < b1.refs → 0 < b2.refs → b1.key = b2.key → b1 = b2)
    ∧ (∀ b ∈ (runOps ops).bodies, 0 < b.refs →
        (constructHandle b.key (runOps ops)).2 = b.id
        ∧ (constructHandle b.key (runOps ops)).1.nextId = (runOps ops).nextId)
    ∧ (∀ key : String, (∀ b ∈ (runOps ops).bodies, b.key = key → b.refs = 0) →
        (constructHandle key (runOps ops)).2 = (runOps ops).nextId
        ∧ lookupReg (constructHandle key (runOps ops)).1.registry key =
            some (runOps ops).nextId) := by
  have h := sysInv_runOps ops
  refine ⟨?_, ?_, ?_⟩
  · intro b1 hb1 b2 hb2 hl1 hl2 hk
    have e1 := h.liveRegistered b1 hb1 hl1
    have e2 := h.liveRegistered b2 hb2 hl2
    rw [hk, e2] at e1
    injection e1 with e3
    exact id_unique h.idsNodup hb1 hb2 e3.symm
  · intro b hb hlive
    rw [construct_attach_eq (runOps ops) h b hb hlive]
    exact ⟨rfl, rfl⟩
  · intro key hdead
    rw [construct_fresh_cases key (runOps ops) h hdead]
    exact ⟨rfl, lookupReg_insert_self _ _ _⟩

/-- Witness for C1: one construction creates body 0; a second construction
for the same key attaches to body 0 and creates no new body. -/
theorem C1_one_body_per_source_witness :
    (⟨0, "n:p", 1, true, false, 0⟩ : BodyRec) ∈
      (runOps [RegOp.construct "n:p"]).bodies
    ∧ (constructHandle "n:p" (runOps [RegOp.construct "n:p"])).2 = 0
    ∧ (constructHandle "n:p" (runOps [RegOp.construct "n:p"])).1.nextId =
        (runOps [RegOp.construct "n:p"]).nextId := by
  have hmem : (⟨0, "n:p", 1, true, false, 0⟩ : BodyRec) ∈
      (runOps [RegOp.construct "n:p"]).bodies := by decide
  have happ := (C1_one_body_per_source [RegOp.construct "n:p"]).2.1
    ⟨0, "n:p", 1, true, false, 0⟩ hmem (by decide)
  exact ⟨hmem, happ.1, happ.2⟩

/-- C2: constructing a `DataReader` with an empty name or an empty source
path fails with `InvalidSource` before anything is created; with non-empty
name and path construction succeeds (never raises `InvalidSource`). -/
theorem C2_invalid_source (name source : String) (s : SysState) :
    (name = "" ∨ source = "" →
        DataReader.tryConstruct name source s = .error .InvalidSource)
    ∧ (name ≠ "" → source ≠ "" →
        DataReader.tryConstruct name source s =
          .ok (constructHandle (source_key name source) s)) := by
  constructor
  · intro h
    rw [DataReader.tryConstruct, if_pos h]
  · intro h1 h2
    rw [DataReader.tryConstruct, if_neg (by simp [h1, h2])]

/-- Witness for C2: an empty name fails fast, a valid pair succeeds. -/
theorem C2_invalid_source_witness :
    DataReader.tryConstruct "" "examples/mnist" initState = .error .InvalidSource
    ∧ DataReader.tryConstruct "data" "examples/mnist" initState =
        .ok (constructHandle (source_key "data" "examples/mnist") initState) :=
  ⟨(C2_invalid_source "" "examples/mnist" initState).1 (Or.inl rfl),
    (C2_invalid_source "data" "examples/mnist" initState).2 (by decide) (by decide)⟩

/-- C7: destroying the last handle of a body emits stop-request and join
before the DB handle and cursor are released, leaves the body dead, and a
subsequent construction for the same key creates a fresh body — a new
identity with a running thread and its cursor at the start — and the registry
entry is cleaned to point at the fresh body. -/
theorem C7_teardown (ops : List RegOp) (b : BodyRec)
    (hb : b ∈ (runOps ops).bodies) (hlast : b.refs = 1) :
    (destructHandle b.id (runOps ops)).2 =
        [TEvent.stopRequested, TEvent.joined, TEvent.dbReleased,
          TEvent.cursorReleased]
    ∧ findBody (destructHandle b.id (runOps ops)).1.bodies b.id =
        some { b with refs := 0, running := false, released := true }
    ∧ (constructHandle b.key (destructHandle b.id (runOps ops)).1).2 =
        (runOps ops).nextId
    ∧ (runOps ops).nextId ≠ b.id
    ∧ findBody (constructHandle b.key (destructHandle b.id (runOps ops)).1).1.bodies
        (runOps ops).nextId =
        some ⟨(runOps ops).nextId, b.key, 1, true, false, 0⟩
    ∧ lookupReg
        (constructHandle b.key (destructHandle b.id (runOps ops)).1).1.registry
        b.key = some (runOps ops).nextId := by
  have h := sysInv_runOps ops
  have hf : findBody (runOps ops).bodies b.id = some b := mem_findBody h.idsNodup hb
  have hde := destructHandle_eq_last hf hlast
  have h' : SysInv (destructHandle b.id (runOps ops)).1 :=
    sysInv_step (runOps ops) h (RegOp.destruct b.id)
  have hdead : ∀ b2 ∈ (destructHandle b.id (runOps ops)).1.bodies,
      b2.key = b.key → b2.refs = 0 := by
    rw [hde]
    intro b2 hb2 hk2
    obtain ⟨b1, hb1, hbeq⟩ := List.mem_map.mp hb2
    by_cases hbi : b1.id = b.id
    · rw [← hbeq, if_pos hbi]
    · have hb2eq : b2 = b1 := by rw [← hbeq, if_neg hbi]
      by_contra hr
      have hb1live : 0 < b1.refs := by
        rw [← hb2eq]; exact Nat.pos_of_ne_zero hr
      have hblive : 0 < b.refs := by omega
      have e1 := h.liveRegistered b1 hb1 hb1live
      have e2 := h.liveRegistered b hb hblive
      rw [← hk2, hb2eq] at e2
      rw [e2] at e1
      injection e1 with e3
      exact hbi e3.symm
  have hfr := construct_fresh_cases b.key (destructHandle b.id (runOps ops)).1 h' hdead
  have hnext : (destructHandle b.id (runOps ops)).1.nextId = (runOps ops).nextId := by
    rw [hde]
  refine ⟨?_, ?_, ?_, ?_, ?_, ?_⟩
  · rw [hde]
  · rw [hde]
    have hmem2 : ({ b with refs := 0, running := false, released := true } : BodyRec) ∈
        updBody (runOps ops).bodies b.id
          (fun b0 => { b0 with refs := 0, running := false, released := true }) :=
      List.mem_map.mpr ⟨b, hb, by simp⟩
    have hnd2 : ((updBody (runOps ops).bodies b.id
        (fun b0 => { b0 with refs := 0, running := false, released := true })).map
          BodyRec.id).Nodup := by
      rw [@updBody_map_id (runOps ops).bodies b.id
        (fun b0 => { b0 with refs := 0, running := false, released := true })
        (fun b0 => rfl)]
      exact h.idsNodup
    exact mem_findBody hnd2 hmem2
  · rw [hfr]
    show (destructHandle b.id (runOps ops)).1.nextId = (runOps ops).nextId
    exact hnext
  · have := h.idsBounded b hb
    omega
  · rw [hfr]
    show findBody (⟨(destructHandle b.id (runOps ops)).1.nextId, b.key, 1, true,
        false, 0⟩ :: (destructHandle b.id (runOps ops)).1.bodies)
        (runOps ops).nextId = _
    rw [findBody, if_pos (by rw [hnext])]
    rw [hnext]
  · rw [hfr]
    show lookupReg (insertReg (destructHandle b.id (runOps ops)).1.registry b.key
        (destructHandle b.id (runOps ops)).1.nextId) b.key = _
    rw [lookupReg_insert_self, hnext]

/-- Witness for C7: construct one handle for key "k", destroy it, observe the
teardown event order, then reconstruct and observe the fresh body id 1. -/
theorem C7_teardown_witness :
    (⟨0, "k", 1, true, false, 0⟩ : BodyRec) ∈ (runOps [RegOp.construct "k"]).bodies
    ∧ (destructHandle 0 (runOps [RegOp.construct "k"])).2 =
        [TEvent.stopRequested, TEvent.joined, TEvent.dbReleased,
          TEvent.cursorReleased]
    ∧ (constructHandle "k" (destructHandle 0 (runOps [RegOp.construct "k"])).1).2 = 1 := by
  have hmem : (⟨0, "k", 1, true, false, 0⟩ : BodyRec) ∈
      (runOps [RegOp.construct "k"]).bodies := by decide
  have happ := C7_teardown [RegOp.construct "k"] ⟨0, "k", 1, true, false, 0⟩ hmem rfl
  exact ⟨hmem, happ.1, happ.2.2.1⟩

/-! ## Round-robin lemmas and claim C6 -/

theorem getD_set_self {α : Type} : ∀ (l : List α) (i : Nat) (a d : α),
    i < l.length → (l.set i a).getD i d = a
  | [], _, _, _, h => absurd h (by simp)
  | _ :: _, 0, _, _, _ => rfl
  | _ :: xs, i + 1, a, d, h => getD_set_self xs i a d (Nat.lt_of_succ_lt_succ h)

theorem getD_set_ne {α : Type} : ∀ (l : List α) (i j : Nat) (a d : α),
    j ≠ i → (l.set i a).getD j d = l.getD j d
  | [], _, _, _, _, _ => rfl
  | _ :: _, 0, 0, _, _, h => absurd rfl h
  | _ :: _, 0, _ + 1, _, _, _ => rfl
  | _ :: _, _ + 1, 0, _, _, _ => rfl
  | _ :: xs, i + 1, j + 1, a, d, h =>
      getD_set_ne xs i j a d (fun hji => h (by rw [hji]))

theorem getD_replicate {α : Type} : ∀ (n i : Nat) (a : α),
    (List.replicate n a).getD i a = a
  | 0, _, _ => rfl
  | _ + 1, 0, _ => rfl
  | n + 1, i + 1, a => getD_replicate n i a

theorem runLoop_succ (P M : Nat) : runLoop P (M + 1) = readOne (runLoop P M) M := by
  rw [runLoop, runLoop, List.range_succ, List.foldl_append, List.foldl_cons,
    List.foldl_nil]

/-- Shape of the loop state after `M` records: `P` queues, rotation at
`M % P`, and pair `i` holds exactly the records `m < M` with `m % P = i`,
in FIFO order. -/
theorem runLoop_char (P : Nat) (hP : 0 < P) (M : Nat) :
    (runLoop P M).queues.length = P
    ∧ (runLoop P M).rr = M % P
    ∧ ∀ i, i < P → (runLoop P M).queues.getD i [] =
        (List.range M).filter (fun m => m % P == i) := by
  induction M with
  | zero =>
    refine ⟨by simp [runLoop], by simp [runLoop], ?_⟩
    intro i _
    show (List.replicate P ([] : List Nat)).getD i [] = _
    rw [List.range_zero, List.filter_nil, getD_replicate]
  | succ M ih =>
    obtain ⟨hlen, hrr, hq⟩ := ih
    rw [runLoop_succ]
    refine ⟨?_, ?_, ?_⟩
    · show ((runLoop P M).queues.set (runLoop P M).rr _).length = P
      rw [List.length_set]
      exact hlen
    · show ((runLoop P M).rr + 1) % (runLoop P M).queues.length = (M + 1) % P
      rw [hrr, hlen]
      exact Nat.mod_add_mod M P 1
    · intro i hi
      show ((runLoop P M).queues.set (runLoop P M).rr
          ((runLoop P M).queues.getD (runLoop P M).rr [] ++ [M])).getD i [] = _
      rw [List.range_succ, List.filter_append, hrr]
      by_cases hieq : i = M % P
      · subst hieq
        have hlt : M % P < (runLoop P M).queues.length := by
          rw [hlen]; exact Nat.mod_lt _ hP
        rw [getD_set_self _ _ _ _ hlt, hq _ (Nat.mod_lt _ hP)]
        have hone : (List.filter (fun m => m % P == M % P) [M]) = [M] := by simp
        rw [hone]
      · rw [getD_set_ne _ _ _ _ _ hieq, hq i hi]
        have hzero : (List.filter (fun m => m % P == i) [M]) = [] := by
          simp
          exact fun h => hieq h.symm
        rw [hzero, List.append_nil]

/-- Bucket sizes after `M` records: with `M = q * P + r`, the first `r` pairs
hold `q + 1` records and the rest hold `q`. -/
theorem runLoop_counts (P : Nat) (hP : 0 < P) (M : Nat) :
    ∃ q r, r < P ∧ M = q * P + r ∧
      ∀ i, i < P → ((runLoop P M).queues.getD i []).length =
        q + (if i < r then 1 else 0) := by
  induction M with
  | zero =>
    refine ⟨0, 0, hP, by omega, ?_⟩
    intro i hi
    rw [(runLoop_char P hP 0).2.2 i hi]
    simp
  | succ M ih =>
    obtain ⟨q, r, hr, hM, hcnt⟩ := ih
    obtain ⟨hlen, hrr, _⟩ := runLoop_char P hP M
    have hmod : M % P = r := by
      rw [hM, Nat.add_comm (q * P) r, Nat.add_mul_mod_self_right]
      exact Nat.mod_eq_of_lt hr
    have hnew : ∀ i, i < P → ((runLoop P (M + 1)).queues.getD i []).length =
        ((runLoop P M).queues.getD i []).length + (if i = r then 1 else 0) := by
      intro i hi
      rw [runLoop_succ]
      show (((runLoop P M).queues.set (runLoop P M).rr
          ((runLoop P M).queues.getD (runLoop P M).rr [] ++ [M])).getD i []).length = _
      rw [hrr, hmod]
      by_cases hir : i = r
      · rw [hir, getD_set_self _ _ _ _ (by rw [hlen]; omega), List.length_append,
          if_pos rfl, List.length_singleton]
      · rw [getD_set_ne _ _ _ _ _ hir, if_neg hir]
        omega
    by_cases hrP : r + 1 < P
    · refine ⟨q, r + 1, hrP, by omega, ?_⟩
      intro i hi
      rw [hnew i hi, hcnt i hi]
      by_cases hir : i = r
      · have h1 : ¬ i < r := by omega
        have h2 : i < r + 1 := by omega
        rw [if_pos hir, if_neg h1, if_pos h2]
      · rw [if_neg hir]
        by_cases hir2 : i < r
        · have h2 : i < r + 1 := by omega
          rw [if_pos hir2, if_pos h2]
        · have h2 : ¬ i < r + 1 := by omega
          rw [if_neg hir2, if_neg h2]
    · refine ⟨q + 1, 0, hP, by rw [Nat.succ_mul]; omega, ?_⟩
      intro i hi
      rw [hnew i hi, hcnt i hi]
      by_cases hir : i = r
      · have h1 : ¬ i < r := by omega
        have h2 : ¬ i < 0 := by omega
        rw [if_pos hir, if_neg h1, if_neg h2]
      · have h1 : i < r := by omega
        have h2 : ¬ i < 0 := by omega
        rw [if_neg hir, if_pos h1, if_neg h2]

/-- C6: the body distributes records round-robin: pair `i` receives exactly
the records `m` with `m % P = i` in order, pair counts never differ by more
than one, and with 2 attached consumers and `M` even each pair has received
exactly `M / 2` records and no pair ever received two consecutive records. -/
theorem C6_round_robin (P M : Nat) (hP : 0 < P) :
    (∀ i, i < P → (runLoop P M).queues.getD i [] =
        (List.range M).filter (fun m => m % P == i))
    ∧ (∀ i, i < P → ∀ j, j < P →
        ((runLoop P M).queues.getD i []).length ≤
          ((runLoop P M).queues.getD j []).length + 1)
    ∧ (P = 2 → M % 2 = 0 →
        (∀ i, i < 2 → ((runLoop 2 M).queues.getD i []).length = M / 2)
        ∧ (∀ i, i < 2 → ∀ m, m ∈ (runLoop 2 M).queues.getD i [] →
            m + 1 ∈ (runLoop 2 M).queues.getD i [] → False)) := by
  obtain ⟨hlen, hrr, hq⟩ := runLoop_char P hP M
  obtain ⟨q, r, hr, hM, hcnt⟩ := runLoop_counts P hP M
  refine ⟨hq, ?_, ?_⟩
  · intro i hi j hj
    rw [hcnt i hi, hcnt j hj]
    by_cases h1 : i < r
    · by_cases h2 : j < r
      · rw [if_pos h1, if_pos h2]
        omega
      · rw [if_pos h1, if_neg h2]
    · by_cases h2 : j < r
      · rw [if_neg h1, if_pos h2]
        omega
      · rw [if_neg h1, if_neg h2]
        omega
  · intro hP2 hM2
    subst hP2
    have hmod : M % 2 = r := by
      rw [hM, Nat.add_comm (q * 2) r, Nat.add_mul_mod_self_right]
      exact Nat.mod_eq_of_lt hr
    have hr0 : r = 0 := by omega
    constructor
    · intro i hi
      rw [hcnt i hi, hr0]
      have h2 : ¬ i < 0 := by omega
      rw [if_neg h2]
      omega
    · intro i hi m hm hm2
      rw [hq i hi] at hm hm2
      rw [List.mem_filter] at hm hm2
      have e1 : m % 2 = i := by simpa using hm.2
      have e2 : (m + 1) % 2 = i := by simpa using hm2.2
      omega

/-- Witness for C6 at two consumers and four records: pair 0 received
records 0 and 2, pair 1 received 1 and 3, two records each. -/
theorem C6_round_robin_witness :
    (runLoop 2 4).queues.getD 0 [] = [0, 2]
    ∧ (runLoop 2 4).queues.getD 1 [] = [1, 3]
    ∧ ((runLoop 2 4).queues.getD 0 []).length = 2
    ∧ ((runLoop 2 4).queues.getD 1 []).length = 2 := by
  have h := C6_round_robin 2 4 (by decide)
  refine ⟨?_, ?_, ?_, ?_⟩
  · rw [h.1 0 (by decide)]
    decide
  · rw [h.1 1 (by decide)]
    decide
  · exact (h.2.2 rfl (by decide)).1 0 (by decide)
  · exact (h.2.2 rfl (by decide)).1 1 (by decide)

/-! ## QueuePair lemmas and claim C8 -/

/-- Each exchange move conserves the multiset of buffer handles. -/
theorem qpStep_perm (s : QPState) (op : QPOp) :
    List.Perm (allBufs (qpStep s op)) (allBufs s) := by
  cases op with
  | producerTake =>
    rcases hf : s.freeQ with _ | ⟨b, rest⟩
    · simp [qpStep, hf]
    · simp only [qpStep, hf, allBufs]
      refine List.perm_iff_count.mpr (fun a => ?_)
      simp only [List.count_append, List.count_cons, List.count_nil]
      by_cases hab : a = b
      · simp [hab]
        omega
      · have hba : ¬ b = a := fun h => hab h.symm
        simp [hba]
  | producerPush =>
    rcases hf : s.producerHeld with _ | ⟨b, rest⟩
    · simp [qpStep, hf]
    · simp only [qpStep, hf, allBufs]
      refine List.perm_iff_count.mpr (fun a => ?_)
      simp only [List.count_append, List.count_cons, List.count_nil]
      by_cases hab : a = b
      · simp [hab]
        omega
      · have hba : ¬ b = a := fun h => hab h.symm
        simp [hba]
  | consumerTake =>
    rcases hf : s.fullQ with _ | ⟨b, rest⟩
    · simp [qpStep, hf]
    · simp only [qpStep, hf, allBufs]
      refine List.perm_iff_count.mpr (fun a => ?_)
      simp only [List.count_append, List.count_cons, List.count_nil]
      by_cases hab : a = b
      · simp [hab]
        omega
      · have hba : ¬ b = a := fun h => hab h.symm
        simp [hba]
  | consumerReturn =>
    rcases hf : s.consumerHeld with _ | ⟨b, rest⟩
    · simp [qpStep, hf]
    · simp only [qpStep, hf, allBufs]
      refine List.perm_iff_count.mpr (fun a => ?_)
      simp only [List.count_append, List.count_cons, List.count_nil]
      by_cases hab : a = b
      · simp [hab]
        omega
      · have hba : ¬ b = a := fun h => hab h.symm
        simp [hba]

theorem runQP_perm (size : Nat) (ops : List QPOp) :
    List.Perm (allBufs (runQP size ops)) (List.range size) := by
  have hrun : ∀ s, List.Perm (allBufs (ops.foldl qpStep s)) (allBufs s) := by
    induction ops with
    | nil => intro s; exact List.Perm.refl _
    | cons op rest ih =>
      intro s
      exact (ih (qpStep s op)).trans (qpStep_perm s op)
  have hinit : allBufs (mkQueuePair size) = List.range size := by
    simp [allBufs, mkQueuePair]
  have := hrun (mkQueuePair size)
  rw [hinit] at this
  exact this

/-- C8: a `QueuePair` starts with its free queue pre-populated with exactly
`size` buffers and its full queue empty, and under the exchange discipline
every buffer handle is at every instant in exactly one of the four places —
free queue, full queue, producer-held, consumer-held — never duplicated and
never lost. -/
theorem C8_buffer_conservation (size : Nat) (ops : List QPOp) :
    (mkQueuePair size).freeQ = List.range size
    ∧ (mkQueuePair size).freeQ.length = size
    ∧ (mkQueuePair size).fullQ = []
    ∧ (mkQueuePair size).producerHeld = []
    ∧ (mkQueuePair size).consumerHeld = []
    ∧ List.Perm (allBufs (runQP size ops)) (List.range size)
    ∧ (∀ b, b < size → (allBufs (runQP size ops)).count b = 1) := by
  refine ⟨rfl, List.length_range size, rfl, rfl, rfl, runQP_perm size ops, ?_⟩
  intro b hb
  rw [(runQP_perm size ops).count_eq]
  exact List.count_eq_one_of_mem (List.nodup_range size) (List.mem_range.mpr hb)

/-- Witness for C8: three buffers, one full exchange cycle in progress. -/
theorem C8_buffer_conservation_witness :
    List.Perm
      (allBufs (runQP 3 [QPOp.producerTake, QPOp.producerPush, QPOp.consumerTake]))
      (List.range 3)
    ∧ (allBufs (runQP 3 [QPOp.producerTake, QPOp.producerPush, QPOp.consumerTake])).count 0 = 1 := by
  have h := C8_buffer_conservation 3
    [QPOp.producerTake, QPOp.producerPush, QPOp.consumerTake]
  exact ⟨h.2.2.2.2.2.1, h.2.2.2.2.2.2 0 (by decide)⟩

end Caffe
